import Mathlib

set_option maxHeartbeats 1000000

/-!
Shallow embedding of `src/ltbnet/network.py`, the declarative-record
compiler of the LTBNet repository: the `Record` store base class and its
subclasses, field normalization in `Record.add`, `Record.dump`, canonical
naming (`Record.build_mn_name`, `Switch.build_mn_name`),
`Network.assign_ip`, `Network.setup_by_region`, `Network.to_canonical`,
and `Link.add_link_to_mn` with the undirected link registry.

Modelling conventions, fixed once for the whole file:
* CSV input fields are strings; the placeholder string `None` marks an
  absent value, exactly as in the source.
* Python `float(...)` is embedded as grammar acceptance over the source
  text (`isPyFloat`); a successfully parsed float is carried as its source
  text, since every claim depends only on the presence or absence of a
  parsed value, never on its numeric magnitude.  CPython extras that the
  repository never feeds it (surrounding whitespace, `_` digit grouping,
  `inf`/`nan` literals) are outside the embedded fragment.
* A Python exception aborting a call is embedded as a `raised` flag or an
  `Option` result; the mutations performed before the raise point (none of
  the claims depend on partially performed mutation) are dropped together
  with the raise.
* `log.error` messages are collected into explicit lists where a claim
  depends on them (`Record.add`); elsewhere they are dropped.
* The Mininet backend is external: node objects are not modelled and link
  creation (`network.addLink`) is recorded as an explicit list of calls,
  whose position serves as the opaque backend handle.
-/

/-- Python truth test for an optional string: `None` and the empty string are falsy. -/
def truthyOptStr (o : Option String) : Bool := o.elim false (fun s => s ≠ "")

/-- Python truth test for an optional integer: `None` and `0` are falsy. -/
def truthyOptInt (o : Option Int) : Bool := o.elim false (fun k => k ≠ 0)

/-- Strip one leading sign character, as CPython numeric parsing does. -/
def stripSign : List Char → List Char
  | '+' :: rest => rest
  | '-' :: rest => rest
  | l => l

/-- A nonempty run of decimal digits. -/
def isUDigits (l : List Char) : Bool := !l.isEmpty && l.all Char.isDigit

/-- Split a character list at the first character satisfying `p`; the second
component is `none` when no character matches. -/
def splitFirst (p : Char → Bool) : List Char → List Char × Option (List Char)
  | [] => ([], none)
  | c :: cs =>
      if p c then ([], some cs)
      else
        let r := splitFirst p cs
        (c :: r.1, r.2)

/-- Mantissa of a CPython float literal: digits optionally containing one
decimal point, with at least one digit present. -/
def isMantissa (l : List Char) : Bool :=
  match splitFirst (fun c => c = '.') l with
  | (a, none) => isUDigits a
  | (a, some b) => (!a.isEmpty || !b.isEmpty) && a.all Char.isDigit && b.all Char.isDigit

/-- Embeds acceptance by CPython `float(...)` on the fragment the repository
exercises: optional sign, mantissa, optional `e`/`E` exponent with optional
signed digits. -/
def isPyFloat (s : String) : Bool :=
  match splitFirst (fun c => c = 'e' || c = 'E') (stripSign s.toList) with
  | (m, none) => isMantissa m
  | (m, some ex) => isMantissa m && isUDigits (stripSign ex)

/-- Numeric value of a decimal digit run. -/
def digitsVal (l : List Char) : Nat := l.foldl (fun a c => a * 10 + (c.toNat - 48)) 0

/-- Embeds CPython `int(...)` on a string: optional sign followed by digits;
`none` is an uncaught `ValueError`. -/
def parsePyInt (s : String) : Option Int :=
  match s.toList with
  | '+' :: rest => if isUDigits rest then some (digitsVal rest : Int) else none
  | '-' :: rest => if isUDigits rest then some (-(digitsVal rest : Int)) else none
  | l => if isUDigits l then some (digitsVal l : Int) else none

/-- One declarative input row, with the source's fixed CSV field names
(`Type` must be renamed, as it is reserved in Lean; all fields arrive as
strings, `None` marking an absent value and an empty `Idx` an absent id). -/
structure Row where
  Ty : String
  Idx : String
  Name : String
  Region : String
  Longitude : String
  Latitude : String
  MAC : String
  IP : String
  PMU_IDX : String
  Delay : String
  BW : String
  Loss : String
  Jitter : String
  From : String
  To : String
deriving DecidableEq

/-- The column state of one `Record` store (`Record.__init__`).  The backend
handle list `mn_object` and the unused `connections` list are omitted: no
claim mentions them.  The source's `prefix` attribute is named `pfx`. -/
structure RecordState where
  n : Nat
  idx : List String
  name : List String
  coords : List (Option String × Option String)
  mac : List (Option String)
  pmu_idx : List (Option Int)
  delay : List (Option String)
  bw : List (Option String)
  jitter : List (Option String)
  loss : List (Option String)
  ip : List String
  fr : List (Option String)
  toCol : List (Option String)
  region : List String
  pfx : String
  mn_name : List String
deriving DecidableEq

/-- A freshly constructed record store: every column empty, count zero. -/
def initRecord : RecordState :=
  { n := 0, idx := [], name := [], coords := [], mac := [], pmu_idx := []
    delay := [], bw := [], jitter := [], loss := [], ip := [], fr := []
    toCol := [], region := [], pfx := "", mn_name := [] }

/-- Embeds the helper `to_type` inside `Record.add`: the literal string
`None` becomes an absent value, everything else passes through. -/
def to_type (var : String) : Option String :=
  if var = "None" then none else some var

/-- Result of one `Record.add` call: the (possibly unchanged) store, the
`log.error` messages emitted before control left the call, and whether an
uncaught exception aborted the call. -/
structure AddResult where
  state : RecordState
  logs : List String
  raised : Bool
deriving DecidableEq

/-- Embeds `Record.add`.  Order follows the source: the kind filter, then
`mac`/`idx`/`pmu_idx` normalization (`int(PMU_IDX)` may raise), then the id
conflict check (logged, non-fatal), then `to_type` on the link fields, then
`float(...)` on latitude and longitude (either may raise), and only then the
appends and the count increment. -/
def Record.add (kind : String) (s : RecordState) (r : Row) : AddResult :=
  if r.Ty ≠ kind then ⟨s, [], false⟩
  else
    let mac := if r.MAC = "None" then none else some r.MAC
    let idx := if r.Idx = "" then kind ++ "_" ++ toString s.n else r.Idx
    match (if r.PMU_IDX = "None" then some none else (parsePyInt r.PMU_IDX).map some) with
    | none => ⟨s, [], true⟩
    | some pmu_idx =>
      let logs := if idx ∈ s.idx then ["PMU Idx <" ++ idx ++ "> conflict."] else []
      let delay := to_type r.Delay
      let bw := to_type r.BW
      let loss := to_type r.Loss
      let jitter := to_type r.Jitter
      let fr := to_type r.From
      let toV := to_type r.To
      match (if r.Latitude = "None" then some none
             else if isPyFloat r.Latitude then some (some r.Latitude) else none) with
      | none => ⟨s, logs, true⟩
      | some lat =>
        match (if r.Longitude = "None" then some none
               else if isPyFloat r.Longitude then some (some r.Longitude) else none) with
        | none => ⟨s, logs, true⟩
        | some lon =>
          ⟨{ s with
              name := s.name ++ [r.Name]
              region := s.region ++ [r.Region]
              coords := s.coords ++ [(lat, lon)]
              ip := s.ip ++ [r.IP]
              mac := s.mac ++ [mac]
              idx := s.idx ++ [idx]
              pmu_idx := s.pmu_idx ++ [pmu_idx]
              delay := s.delay ++ [delay]
              bw := s.bw ++ [bw]
              loss := s.loss ++ [loss]
              jitter := s.jitter ++ [jitter]
              fr := s.fr ++ [fr]
              toCol := s.toCol ++ [toV]
              n := s.n + 1 }, logs, false⟩

/-- Cells of a dumped row are Python values: strings, ints, or the `None`
object (which `Record.dump` can emit for the delay column). -/
inductive Cell
  | str (s : String)
  | int (k : Int)
  | pyNone
deriving DecidableEq

/-- Python `str(...)` on a dumped cell, as `Network.dump_csv` applies it. -/
def Cell.toStr : Cell → String
  | .str s => s
  | .int k => toString k
  | .pyNone => "None"

/-- Rendering of an optional coordinate by `str(...)`: absent gives the
placeholder, a parsed float is carried as its source text. -/
def strOfCoord : Option String → String
  | none => "None"
  | some s => s

/-- Embeds `Record.dump`: one 13-cell row per stored record, in insertion
order.  Truthiness gates follow the source line by line; in particular the
delay cell is gated on `self.pmu_idx[i]`, not on the delay value itself. -/
def Record.dump (kind : String) (s : RecordState) : List (List Cell) :=
  (List.range s.n).map (fun i =>
    [Cell.str (s.idx.getD i ""),
     Cell.str kind,
     Cell.str (s.region.getD i ""),
     Cell.str (s.name.getD i ""),
     Cell.str (strOfCoord (s.coords.getD i (none, none)).2),
     Cell.str (strOfCoord (s.coords.getD i (none, none)).1),
     (match s.mac.getD i none with
      | some m => if m ≠ "" then Cell.str m else Cell.str "None"
      | none => Cell.str "None"),
     (if s.ip.getD i "" ≠ "" then Cell.str (s.ip.getD i "") else Cell.str "None"),
     (match s.pmu_idx.getD i none with
      | some k => if k ≠ 0 then Cell.int k else Cell.str "None"
      | none => Cell.str "None"),
     (if truthyOptInt (s.pmu_idx.getD i none) then
        (match s.delay.getD i none with
         | some d => Cell.str d
         | none => Cell.pyNone)
      else Cell.str "None"),
     (match s.bw.getD i none with
      | some b => if b ≠ "" then Cell.str b else Cell.str "None"
      | none => Cell.str "None"),
     (match s.loss.getD i none with
      | some v => if v ≠ "" then Cell.str v else Cell.str "None"
      | none => Cell.str "None"),
     (match s.jitter.getD i none with
      | some v => if v ≠ "" then Cell.str v else Cell.str "None"
      | none => Cell.str "None")])

/-- The dumped rows after the `str(...)` conversion of `Network.dump_csv`. -/
def Record.dumpStr (kind : String) (s : RecordState) : List (List String) :=
  (Record.dump kind s).map (fun row => row.map Cell.toStr)

/-- Embeds `Record.build_mn_name`: the default canonical-naming rule
`prefix + id`, row by row. -/
def Record.build_mn_name (s : RecordState) : RecordState :=
  { s with mn_name := (List.range s.n).map (fun i => s.pfx ++ s.idx.getD i "") }

/-- Embeds `Switch.build_mn_name`: purely positional `s<ordinal>` names. -/
def Switch.build_mn_name (s : RecordState) : RecordState :=
  { s with mn_name := (List.range s.n).map (fun i => "s" ++ toString i) }

/-- The `Region` store (`Region.build`): a record store that additionally
owns, per tracked kind, one membership list per region row. -/
structure RegionStore extends RecordState where
  Switch : List (List String)
  Router : List (List String)
  PMU : List (List String)
  PDC : List (List String)
deriving DecidableEq

/-- A freshly constructed `Region` store. -/
def initRegion : RegionStore :=
  { toRecordState := initRecord, Switch := [], Router := [], PMU := [], PDC := [] }

/-- The `Link` store (`Link.__init__`): a record store plus the registry of
registered endpoint pairs and their backend handles (handles are modelled as
positions in the backend call list). -/
structure LinkState extends RecordState where
  links : List (Option String × Option String)
  obj : List Nat
deriving DecidableEq

/-- A freshly constructed `Link` store. -/
def initLink : LinkState :=
  { toRecordState := initRecord, links := [], obj := [] }

/-- Embeds `Link.register`. -/
def Link.register (l : LinkState) (fr toE : Option String) (idx : Nat) : LinkState :=
  { l with links := l.links ++ [(fr, toE)], obj := l.obj ++ [idx] }

/-- Embeds `Link.exist_directioned`: membership of the ordered pair in the
registry. -/
def Link.exist_directioned (l : LinkState) (fr toE : Option String) : Bool :=
  l.links.contains (fr, toE)

/-- Embeds `Link.exist_undirectioned`: the pair in either orientation. -/
def Link.exist_undirectioned (l : LinkState) (fr toE : Option String) : Bool :=
  Link.exist_directioned l fr toE || Link.exist_directioned l toE fr

/-- The `Network` object: one store per component kind plus the ordered list
of kind names actually seen during ingestion (`self.components`). -/
structure Network where
  components : List String
  Region : RegionStore
  Switch : RecordState
  PDC : RecordState
  Router : RecordState
  PMU : RecordState
  Link : LinkState
  HwIntf : RecordState
  TCHwIntf : RecordState
deriving DecidableEq

/-- A freshly constructed `Network`. -/
def initNetwork : Network :=
  { components := [], Region := initRegion, Switch := initRecord
    PDC := initRecord, Router := initRecord, PMU := initRecord
    Link := initLink, HwIntf := initRecord, TCHwIntf := initRecord }

/-- One iteration of the `Network.assign_ip` loops: the counter is
incremented before use; a truthy `ip` entry is kept, otherwise
`base + str(count)` is written (a positional read past the column end would
be an uncaught `IndexError`; `Record.add` keeps `n` equal to the column
length, so the default is never read on reachable stores). -/
def assignStep (base : String) (acc : Nat × List String) (i : Nat) :
    Nat × List String :=
  let c := acc.1 + 1
  if acc.2.getD i "" ≠ "" then (c, acc.2)
  else (c, acc.2.set i (base ++ toString c))

/-- Embeds `Network.assign_ip`: a single counter starts at `1`, the loop
over `range(self.PDC.n)` and then `range(self.PMU.n)` increments it once per
row before use, and rows whose `ip` entry is truthy are skipped (but still
advance the counter). -/
def Network.assign_ip (net : Network) (base : String) : Network :=
  let pdcRes := (List.range net.PDC.n).foldl (assignStep base) (1, net.PDC.ip)
  let pmuRes := (List.range net.PMU.n).foldl (assignStep base) (pdcRes.1, net.PMU.ip)
  { net with PDC := { net.PDC with ip := pdcRes.2 }
             PMU := { net.PMU with ip := pmuRes.2 } }

/-- Embeds `Network.to_canonical`: a known Switch id is replaced by that
switch's canonical Mininet name, anything else passes through. -/
def Network.to_canonical (net : Network) (idx : String) : String :=
  if idx ∈ net.Switch.idx then
    net.Switch.mn_name.getD (net.Switch.idx.findIdx (fun x => x = idx)) ""
  else idx

/-- The kinds the `Region` store tracks, i.e. the component names for which
`hasattr(self.Region, item)` holds in `Network.setup_by_region`. -/
inductive Tk
  | SwitchK
  | RouterK
  | PMUK
  | PDCK
deriving DecidableEq

/-- Which component-name strings are tracked by the `Region` store. -/
def tracked : String → Option Tk
  | "Switch" => some Tk.SwitchK
  | "Router" => some Tk.RouterK
  | "PMU" => some Tk.PMUK
  | "PDC" => some Tk.PDCK
  | _ => none

/-- The membership lists of the `Region` store, as one value per tracked
kind (proof-side view of the four mutable attributes). -/
structure Members where
  Switch : List (List String)
  Router : List (List String)
  PMU : List (List String)
  PDC : List (List String)
deriving DecidableEq

/-- Project one tracked kind's membership lists. -/
def Members.get : Members → Tk → List (List String)
  | m, Tk.SwitchK => m.Switch
  | m, Tk.RouterK => m.Router
  | m, Tk.PMUK => m.PMU
  | m, Tk.PDCK => m.PDC

/-- Overwrite one tracked kind's membership lists. -/
def Members.set : Members → Tk → List (List String) → Members
  | m, Tk.SwitchK, v => { m with Switch := v }
  | m, Tk.RouterK, v => { m with Router := v }
  | m, Tk.PMUK, v => { m with PMU := v }
  | m, Tk.PDCK, v => { m with PDC := v }

/-- The record store a tracked kind refers to. -/
def kindStore (net : Network) : Tk → RecordState
  | Tk.SwitchK => net.Switch
  | Tk.RouterK => net.Router
  | Tk.PMUK => net.PMU
  | Tk.PDCK => net.PDC

/-- Append `x` to the sub-list at position `p` (`lists[loc].append(idx)`). -/
def appendAt (l : List (List String)) (p : Nat) (x : String) : List (List String) :=
  l.set p (l.getD p [] ++ [x])

/-- One row of the scan in `Network.setup_by_region`: read `name`, `idx` and
`region` positionally (an out-of-range read is an uncaught `IndexError`); a
region present in `Region.idx` is located in `Region.name` — a missing name
there is an uncaught `ValueError` from `list.index` — and the row's id is
appended there; an undefined region is logged and skipped. -/
def regionStep (reg : RegionStore) (st : RecordState) (lists : List (List String))
    (i : Nat) : Option (List (List String)) := do
  let _name ← st.name.get? i
  let idx ← st.idx.get? i
  let region ← st.region.get? i
  if region ∈ reg.idx then
    match reg.name.findIdx? (fun x => x = region) with
    | some loc => some (appendAt lists loc idx)
    | none => none
  else
    some lists

/-- Rebuild one tracked kind's membership lists from scratch
(`[list() for _ in range(self.Region.n)]` followed by the row scan). -/
def buildKind (reg : RegionStore) (st : RecordState) : Option (List (List String)) :=
  (List.range st.n).foldlM (regionStep reg st) (List.replicate reg.n [])

/-- One `components` entry of `Network.setup_by_region`: untracked kinds are
skipped, a tracked kind's lists are rebuilt from scratch and overwritten. -/
def setupStep (net : Network) (m : Members) (item : String) : Option Members :=
  match tracked item with
  | none => some m
  | some k => (buildKind net.Region (kindStore net k)).map (fun l => Members.set m k l)

/-- The four membership attributes currently stored on the `Region` store. -/
def initMembers (net : Network) : Members :=
  ⟨net.Region.Switch, net.Region.Router, net.Region.PMU, net.Region.PDC⟩

/-- Write four membership attributes back onto the `Region` store. -/
def withMembers (net : Network) (m : Members) : Network :=
  { net with Region := { net.Region with
      Switch := m.Switch, Router := m.Router, PMU := m.PMU, PDC := m.PDC } }

/-- Embeds `Network.setup_by_region`: fold the per-component rebuild over
`self.components` in registration order; each tracked kind's membership
attribute is rebuilt from scratch and overwritten in place. -/
def Network.setup_by_region (net : Network) : Option Network :=
  (net.components.foldlM (setupStep net) (initMembers net)).map (withMembers net)

/-- One backend `network.addLink` call, with the arguments the source passes
(shaping values carried as their validated source text). -/
structure AddLinkCall where
  fr : Option String
  toE : Option String
  delay : Option String
  bw : Option String
  loss : Option String
  jitter : Option String
deriving DecidableEq

/-- The per-row tuples `zip(range(self.n), self.mn_name, self.fr, self.to,
self.delay, self.bw, self.loss, self.jitter)` iterated by
`Link.add_link_to_mn` (Python `zip` truncates at the shortest list). -/
def Link.linkRows (l : LinkState) :
    List (Nat × String × Option String × Option String × Option String ×
      Option String × Option String × Option String) :=
  (List.range l.n).zip (l.mn_name.zip (l.fr.zip (l.toCol.zip (l.delay.zip
    (l.bw.zip (l.loss.zip l.jitter))))))

/-- Embeds `Link.add_link_to_mn`: canonicalize both endpoints, coerce the
shaping fields (`float(...)` may raise; `loss` is gated on truthiness, `bw`
and `jitter` on being non-`None`), skip silently when the undirected edge is
already registered, otherwise issue one backend call and register the pair
with the returned handle. -/
def Link.add_link_to_mn (net : Network) (calls : List AddLinkCall) :
    Option (Network × List AddLinkCall) :=
  (Link.linkRows net.Link).foldlM
    (fun acc row =>
      match row with
      | (_i, _nm, fr0, to0, delay, bw, loss, jitter) =>
        let fr := fr0.map (Network.to_canonical acc.1)
        let toE := to0.map (Network.to_canonical acc.1)
        let d := delay
        match (match bw with
               | none => some none
               | some s => if isPyFloat s then some (some s) else none) with
        | none => none
        | some b =>
          match (match loss with
                 | none => some none
                 | some s =>
                     if s ≠ "" then (if isPyFloat s then some (some s) else none)
                     else some none) with
          | none => none
          | some lv =>
            match (match jitter with
                   | none => some none
                   | some s => if isPyFloat s then some (some s) else none) with
            | none => none
            | some j =>
              if Link.exist_undirectioned acc.1.Link fr toE then some acc
              else
                let r := acc.2.length
                some ({ acc.1 with Link := Link.register acc.1.Link fr toE r },
                      acc.2 ++ [⟨fr, toE, d, b, lv, j⟩]))
    (net, calls)

/-- Rows whose optional numeric fields parse, so that `Record.add` raises no
exception. -/
def WFRow (r : Row) : Prop :=
  (r.PMU_IDX = "None" ∨ (parsePyInt r.PMU_IDX).isSome = true) ∧
  (r.Latitude = "None" ∨ isPyFloat r.Latitude = true) ∧
  (r.Longitude = "None" ∨ isPyFloat r.Longitude = true)

instance (r : Row) : Decidable (WFRow r) := by
  unfold WFRow; infer_instance

/-- The identifier `Record.add` stores for a row: the explicit `Idx` when
truthy, else the derived `<kind>_<count>`. -/
def derivedIdx (kind : String) (s : RecordState) (r : Row) : String :=
  if r.Idx = "" then kind ++ "_" ++ toString s.n else r.Idx

/-- The telemetry index a successful `Record.add` stores. -/
def addPmuVal (r : Row) : Option Int :=
  if r.PMU_IDX = "None" then none else parsePyInt r.PMU_IDX

/-- The latitude a successful `Record.add` stores. -/
def addLatVal (r : Row) : Option String :=
  if r.Latitude = "None" then none else some r.Latitude

/-- The longitude a successful `Record.add` stores. -/
def addLonVal (r : Row) : Option String :=
  if r.Longitude = "None" then none else some r.Longitude

/-- The store a successful `Record.add` leaves behind (proof-side view). -/
def addedState (kind : String) (s : RecordState) (r : Row) : RecordState :=
  { s with
      name := s.name ++ [r.Name]
      region := s.region ++ [r.Region]
      coords := s.coords ++ [(addLatVal r, addLonVal r)]
      ip := s.ip ++ [r.IP]
      mac := s.mac ++ [if r.MAC = "None" then none else some r.MAC]
      idx := s.idx ++ [derivedIdx kind s r]
      pmu_idx := s.pmu_idx ++ [addPmuVal r]
      delay := s.delay ++ [to_type r.Delay]
      bw := s.bw ++ [to_type r.BW]
      loss := s.loss ++ [to_type r.Loss]
      jitter := s.jitter ++ [to_type r.Jitter]
      fr := s.fr ++ [to_type r.From]
      toCol := s.toCol ++ [to_type r.To]
      n := s.n + 1 }

/-- A matching, well-formed row is appended (with its conflict check logged
when the id already occurs) and the call does not raise. -/
theorem add_ok (kind : String) (s : RecordState) (r : Row)
    (ht : r.Ty = kind) (hw : WFRow r) :
    Record.add kind s r =
      ⟨addedState kind s r,
       if derivedIdx kind s r ∈ s.idx then
         ["PMU Idx <" ++ derivedIdx kind s r ++ "> conflict."]
       else [], false⟩ := by
  obtain ⟨hp, hla, hlo⟩ := hw
  have hpmu : (if r.PMU_IDX = "None" then some none
      else (parsePyInt r.PMU_IDX).map some) = some (addPmuVal r) := by
    unfold addPmuVal
    rcases hp with h | h
    · simp [h]
    · obtain ⟨k, hk⟩ := Option.isSome_iff_exists.mp h
      by_cases hn : r.PMU_IDX = "None"
      · simp [hn]
      · simp [hn, hk]
  have hlat : (if r.Latitude = "None" then some none
      else if isPyFloat r.Latitude then some (some r.Latitude) else none) =
      some (addLatVal r) := by
    unfold addLatVal
    rcases hla with h | h
    · simp [h]
    · by_cases hn : r.Latitude = "None" <;> simp [hn, h]
  have hlon : (if r.Longitude = "None" then some none
      else if isPyFloat r.Longitude then some (some r.Longitude) else none) =
      some (addLonVal r) := by
    unfold addLonVal
    rcases hlo with h | h
    · simp [h]
    · by_cases hn : r.Longitude = "None" <;> simp [hn, h]
  unfold Record.add
  rw [if_neg (by simp [ht])]
  rw [hpmu, hlat, hlon]
  rfl

theorem getD_set_eq_of_lt (l : List String) (i : Nat) (h : i < l.length)
    (v d : String) : (l.set i v).getD i d = v := by
  rw [List.getD_eq_getD_get?, List.get?_set_eq_of_lt _ h]
  rfl

theorem getD_set_ne (l : List String) (i j : Nat) (h : i ≠ j) (v d : String) :
    (l.set i v).getD j d = l.getD j d := by
  rw [List.getD_eq_getD_get?, List.get?_set_ne _ _ h, ← List.getD_eq_getD_get?]

theorem getD_map_range {α : Type} (f : Nat → α) (n i : Nat) (h : i < n)
    (d : α) : (((List.range n).map f).getD i d) = f i := by
  rw [List.getD_eq_getD_get?, List.get?_map, List.get?_range h]
  rfl

theorem assignStep_fst (base : String) (acc : Nat × List String) (i : Nat) :
    (assignStep base acc i).1 = acc.1 + 1 := by
  unfold assignStep
  split <;> rfl

theorem assign_fold_fst (base : String) (n : Nat) :
    ∀ (c : Nat) (l : List String),
      ((List.range n).foldl (assignStep base) (c, l)).1 = c + n := by
  induction n with
  | zero => intro c l; rfl
  | succ n ih =>
      intro c l
      rw [List.range_succ, List.foldl_append, List.foldl_cons, List.foldl_nil,
        assignStep_fst]
      rw [ih c l]
      omega

theorem assign_fold_length (base : String) (n : Nat) :
    ∀ (c : Nat) (l : List String),
      ((List.range n).foldl (assignStep base) (c, l)).2.length = l.length := by
  induction n with
  | zero => intro c l; rfl
  | succ n ih =>
      intro c l
      rw [List.range_succ, List.foldl_append, List.foldl_cons, List.foldl_nil]
      unfold assignStep
      split
      · exact ih c l
      · simp only [List.length_set]
        exact ih c l

theorem assignStep_snd (base : String) (acc : Nat × List String) (i : Nat) :
    (assignStep base acc i).2 =
      if acc.2.getD i "" ≠ "" then acc.2
      else acc.2.set i (base ++ toString (acc.1 + 1)) := by
  unfold assignStep
  split <;> rfl

theorem assign_fold_getD (base : String) (n : Nat) :
    ∀ (c : Nat) (l : List String), n ≤ l.length → ∀ i : Nat,
      ((List.range n).foldl (assignStep base) (c, l)).2.getD i "" =
        if i < n then
          (if l.getD i "" ≠ "" then l.getD i "" else base ++ toString (c + i + 1))
        else l.getD i "" := by
  induction n with
  | zero =>
      intro c l _ i
      simp
  | succ n ih =>
      intro c l h i
      have hn : n ≤ l.length := Nat.le_of_succ_le h
      rw [List.range_succ, List.foldl_append, List.foldl_cons, List.foldl_nil]
      have hacc1 : ((List.range n).foldl (assignStep base) (c, l)).1 = c + n :=
        assign_fold_fst base n c l
      have hlen : ((List.range n).foldl (assignStep base) (c, l)).2.length = l.length :=
        assign_fold_length base n c l
      have hgetn : ((List.range n).foldl (assignStep base) (c, l)).2.getD n "" =
          l.getD n "" := by
        rw [ih c l hn n, if_neg (Nat.lt_irrefl n)]
      rw [assignStep_snd, hacc1]
      split
      · next htr =>
          rw [hgetn] at htr
          rcases Nat.lt_trichotomy i n with hi | hi | hi
          · rw [ih c l hn i, if_pos hi, if_pos (Nat.lt_succ_of_lt hi)]
          · subst hi
            rw [hgetn, if_pos (Nat.lt_succ_self i), if_pos htr]
          · rw [ih c l hn i, if_neg (Nat.lt_asymm hi), if_neg (by omega)]
      · next htr =>
          rw [hgetn] at htr
          have hveq : l.getD n "" = "" := by
            by_contra hne
            exact htr hne
          rcases Nat.lt_trichotomy i n with hi | hi | hi
          · rw [getD_set_ne _ _ _ (by omega), ih c l hn i, if_pos hi,
              if_pos (Nat.lt_succ_of_lt hi)]
          · subst hi
            rw [getD_set_eq_of_lt _ _ (by omega), if_pos (Nat.lt_succ_self i),
              hveq, if_neg (by simp)]
          · rw [getD_set_ne _ _ _ (by omega), ih c l hn i,
              if_neg (Nat.lt_asymm hi), if_neg (by omega)]

/-- The network of the claimed address-assignment example: 2 PDC rows and
3 PMU rows, none with a pre-assigned address. -/
def exC1 : Network :=
  { initNetwork with
      PDC := { initRecord with n := 2, ip := ["", ""] }
      PMU := { initRecord with n := 3, ip := ["", "", ""] } }

/-- C1: `Network.assign_ip` iterates over all PDC rows then all PMU rows in
store order with one running counter starting at 1 and incremented once per
row before use, so row `i` of the PDC store receives `base + str(i + 2)` and
row `j` of the PMU store receives `base + str(PDC.n + j + 2)` whenever the
row's `ip` entry is empty; a non-empty entry is left unchanged but still
advances the counter.  In particular, for 2 PDC rows and 3 PMU rows with no
pre-assigned addresses and base prefix `10.0.0.`, the PDCs receive
`10.0.0.2, 10.0.0.3` and the PMUs `10.0.0.4, 10.0.0.5, 10.0.0.6`. -/
theorem C1_assign_ip (net : Network) (base : String)
    (hpdc : net.PDC.n = net.PDC.ip.length)
    (hpmu : net.PMU.n = net.PMU.ip.length) :
    (∀ i, i < net.PDC.n →
      (Network.assign_ip net base).PDC.ip.getD i "" =
        (if net.PDC.ip.getD i "" ≠ "" then net.PDC.ip.getD i ""
         else base ++ toString (i + 2))) ∧
    (∀ j, j < net.PMU.n →
      (Network.assign_ip net base).PMU.ip.getD j "" =
        (if net.PMU.ip.getD j "" ≠ "" then net.PMU.ip.getD j ""
         else base ++ toString (net.PDC.n + j + 2))) ∧
    ((Network.assign_ip exC1 "10.0.0.").PDC.ip = ["10.0.0.2", "10.0.0.3"] ∧
     (Network.assign_ip exC1 "10.0.0.").PMU.ip =
       ["10.0.0.4", "10.0.0.5", "10.0.0.6"]) := by
  refine ⟨?_, ?_, by decide⟩
  · intro i hi
    have hrfl : (Network.assign_ip net base).PDC.ip =
        ((List.range net.PDC.n).foldl (assignStep base) (1, net.PDC.ip)).2 := rfl
    rw [hrfl, assign_fold_getD base net.PDC.n 1 net.PDC.ip (le_of_eq hpdc) i,
      if_pos hi]
    have h2 : 1 + i + 1 = i + 2 := by omega
    rw [h2]
  · intro j hj
    have hrfl : (Network.assign_ip net base).PMU.ip =
        ((List.range net.PMU.n).foldl (assignStep base)
          (((List.range net.PDC.n).foldl (assignStep base) (1, net.PDC.ip)).1,
            net.PMU.ip)).2 := rfl
    rw [hrfl, assign_fold_fst base net.PDC.n 1 net.PDC.ip,
      assign_fold_getD base net.PMU.n (1 + net.PDC.n) net.PMU.ip
        (le_of_eq hpmu) j, if_pos hj]
    have h2 : 1 + net.PDC.n + j + 1 = net.PDC.n + j + 2 := by omega
    rw [h2]

/-- Witness for C1: the theorem applied to the example network, with both
hypotheses discharged by evaluation. -/
theorem C1_assign_ip_witness :
    (Network.assign_ip exC1 "10.0.0.").PDC.ip.getD 0 "" = "10.0.0.2" ∧
    (Network.assign_ip exC1 "10.0.0.").PMU.ip.getD 2 "" = "10.0.0.6" := by
  have h := C1_assign_ip exC1 "10.0.0." (by decide) (by decide)
  refine ⟨?_, ?_⟩
  · rw [h.1 0 (by decide)]
    decide
  · rw [h.2.1 2 (by decide)]
    decide

/-- A PDC row whose `Latitude` value `abc` is present but not parseable as a
float. -/
def rowBadLat : Row :=
  { Ty := "PDC", Idx := "x", Name := "", Region := "", Longitude := "None"
    Latitude := "abc", MAC := "None", IP := "", PMU_IDX := "None"
    Delay := "None", BW := "None", Loss := "None", Jitter := "None"
    From := "None", To := "None" }

/-- Counterexample to C3: on a row whose `Latitude` is present but malformed,
`Record.add` raises an uncaught `ValueError` from `float(...)`; the store is
left with zero rows (the row is not created) and no error is reported. -/
theorem C3_counterexample :
    (Record.add "PDC" initRecord rowBadLat).raised = true ∧
    (Record.add "PDC" initRecord rowBadLat).state.n = 0 ∧
    (Record.add "PDC" initRecord rowBadLat).logs = [] := by
  decide

/-- C3 (amended): an `add` call whose `Latitude` or `Longitude` raw value is
present but fails to parse as floating point raises an uncaught exception:
the parse failure is not reported through the error log at the raise point,
and the row is not created — the store is returned unchanged. -/
theorem C3_badfloat_raises (kind : String) (s : RecordState) (r : Row)
    (ht : r.Ty = kind)
    (hp : r.PMU_IDX = "None" ∨ (parsePyInt r.PMU_IDX).isSome = true)
    (hbad : (r.Latitude ≠ "None" ∧ isPyFloat r.Latitude = false) ∨
            (r.Longitude ≠ "None" ∧ isPyFloat r.Longitude = false)) :
    (Record.add kind s r).raised = true ∧
    (Record.add kind s r).state = s := by
  have hpmu : (if r.PMU_IDX = "None" then some none
      else (parsePyInt r.PMU_IDX).map some) =
      some (addPmuVal r) := by
    unfold addPmuVal
    rcases hp with h | h
    · simp [h]
    · obtain ⟨k, hk⟩ := Option.isSome_iff_exists.mp h
      by_cases hn : r.PMU_IDX = "None"
      · simp [hn]
      · simp [hn, hk]
  unfold Record.add
  rw [if_neg (by simp [ht]), hpmu]
  rcases hbad with ⟨hne, hflt⟩ | ⟨hne, hflt⟩
  · have hc : ¬ (isPyFloat r.Latitude = true) := by simp [hflt]
    rw [if_neg hne, if_neg hc]
    exact ⟨rfl, rfl⟩
  · have hc : ¬ (isPyFloat r.Longitude = true) := by simp [hflt]
    rw [if_neg hne, if_neg hc]
    by_cases hA : r.Latitude = "None"
    · rw [if_pos hA]
      exact ⟨rfl, rfl⟩
    · rw [if_neg hA]
      by_cases hAF : isPyFloat r.Latitude = true
      · rw [if_pos hAF]
        exact ⟨rfl, rfl⟩
      · rw [if_neg hAF]
        exact ⟨rfl, rfl⟩

/-- Witness for the amended C3: the theorem applied to a concrete malformed
row. -/
theorem C3_badfloat_raises_witness :
    (Record.add "PDC" initRecord rowBadLat).raised = true ∧
    (Record.add "PDC" initRecord rowBadLat).state = initRecord :=
  C3_badfloat_raises "PDC" initRecord rowBadLat (by decide) (by decide)
    (by decide)

/-- C6: adding two rows with the same explicit id to one record store yields
two stored rows and exactly one reported conflict: the first add logs
nothing, the second logs exactly the conflict message; neither add raises,
the duplicate row is appended rather than dropped, and both rows' data are
stored (no deduplication). -/
theorem C6_duplicate_id (kind I : String) (r1 r2 : Row)
    (ht1 : r1.Ty = kind) (ht2 : r2.Ty = kind)
    (hI1 : r1.Idx = I) (hI2 : r2.Idx = I) (hne : I ≠ "")
    (hw1 : WFRow r1) (hw2 : WFRow r2) :
    (Record.add kind initRecord r1).raised = false ∧
    (Record.add kind initRecord r1).logs = [] ∧
    (Record.add kind (Record.add kind initRecord r1).state r2).raised = false ∧
    (Record.add kind (Record.add kind initRecord r1).state r2).logs =
      ["PMU Idx <" ++ I ++ "> conflict."] ∧
    (Record.add kind (Record.add kind initRecord r1).state r2).state.n = 2 ∧
    (Record.add kind (Record.add kind initRecord r1).state r2).state.idx =
      [I, I] ∧
    (Record.add kind (Record.add kind initRecord r1).state r2).state.name =
      [r1.Name, r2.Name] := by
  have hd1 : ∀ s : RecordState, derivedIdx kind s r1 = I := by
    intro s
    unfold derivedIdx
    rw [hI1]
    exact if_neg hne
  have hd2 : ∀ s : RecordState, derivedIdx kind s r2 = I := by
    intro s
    unfold derivedIdx
    rw [hI2]
    exact if_neg hne
  rw [add_ok kind initRecord r1 ht1 hw1]
  simp only [hd1]
  have hm1 : ¬ (I ∈ initRecord.idx) := by simp [initRecord]
  rw [if_neg hm1]
  rw [add_ok kind (addedState kind initRecord r1) r2 ht2 hw2]
  simp only [hd2]
  have hm2 : I ∈ (addedState kind initRecord r1).idx := by
    simp [addedState, hd1, initRecord]
  rw [if_pos hm2]
  simp [addedState, initRecord, hd1, hd2]

/-- Witness for C6: the theorem applied to two concrete rows sharing the
explicit id `dup`. -/
theorem C6_duplicate_id_witness :
    (Record.add "PDC" initRecord
      { Ty := "PDC", Idx := "dup", Name := "a", Region := "", Longitude := "None"
        Latitude := "None", MAC := "None", IP := "", PMU_IDX := "None"
        Delay := "None", BW := "None", Loss := "None", Jitter := "None"
        From := "None", To := "None" }).logs = [] ∧
    (Record.add "PDC" (Record.add "PDC" initRecord
      { Ty := "PDC", Idx := "dup", Name := "a", Region := "", Longitude := "None"
        Latitude := "None", MAC := "None", IP := "", PMU_IDX := "None"
        Delay := "None", BW := "None", Loss := "None", Jitter := "None"
        From := "None", To := "None" }).state
      { Ty := "PDC", Idx := "dup", Name := "b", Region := "", Longitude := "None"
        Latitude := "None", MAC := "None", IP := "", PMU_IDX := "None"
        Delay := "None", BW := "None", Loss := "None", Jitter := "None"
        From := "None", To := "None" }).state.idx = ["dup", "dup"] := by
  have h := C6_duplicate_id "PDC" "dup"
    { Ty := "PDC", Idx := "dup", Name := "a", Region := "", Longitude := "None"
      Latitude := "None", MAC := "None", IP := "", PMU_IDX := "None"
      Delay := "None", BW := "None", Loss := "None", Jitter := "None"
      From := "None", To := "None" }
    { Ty := "PDC", Idx := "dup", Name := "b", Region := "", Longitude := "None"
      Latitude := "None", MAC := "None", IP := "", PMU_IDX := "None"
      Delay := "None", BW := "None", Loss := "None", Jitter := "None"
      From := "None", To := "None" }
    rfl rfl rfl rfl (by decide) (by decide) (by decide)
  exact ⟨h.2.1, h.2.2.2.2.2.1⟩

/-- Sequentially add a list of rows to a store, as `Network.add` does when
it routes consecutive config entries to the same store; an exception in any
`Record.add` call propagates and aborts the whole ingestion. -/
def foldAdd (kind : String) (s : RecordState) : List Row → Option RecordState
  | [] => some s
  | r :: rest =>
      let a := Record.add kind s r
      if a.raised then none else foldAdd kind a.state rest

theorem foldAdd_blank (kind : String) (rows : List Row)
    (h : ∀ r ∈ rows, r.Ty = kind ∧ r.Idx = "" ∧ WFRow r) :
    ∀ s : RecordState, ∃ s', foldAdd kind s rows = some s' ∧
      s'.idx = s.idx ++
        (List.range rows.length).map (fun j => kind ++ "_" ++ toString (s.n + j)) ∧
      s'.n = s.n + rows.length := by
  induction rows with
  | nil =>
      intro s
      exact ⟨s, rfl, by simp, by simp⟩
  | cons r rest ih =>
      intro s
      obtain ⟨ht, hIdx, hw⟩ := h r (List.mem_cons_self r rest)
      have hstep := add_ok kind s r ht hw
      have hd : derivedIdx kind s r = kind ++ "_" ++ toString s.n := by
        unfold derivedIdx
        rw [hIdx]
        exact if_pos rfl
      obtain ⟨s', hfold, hidx, hn⟩ :=
        ih (fun r' hr' => h r' (List.mem_cons_of_mem r hr')) (addedState kind s r)
      refine ⟨s', ?_, ?_, ?_⟩
      · show (if (Record.add kind s r).raised then none
          else foldAdd kind (Record.add kind s r).state rest) = some s'
        rw [hstep]
        exact hfold
      · rw [hidx]
        have hai : (addedState kind s r).idx = s.idx ++ [kind ++ "_" ++ toString s.n] := by
          simp [addedState, hd]
        have han : (addedState kind s r).n = s.n + 1 := by
          simp [addedState]
        rw [hai, han, List.append_assoc]
        congr 1
        rw [List.length_cons, List.range_succ_eq_map, List.map_cons, List.map_map]
        simp only [Nat.add_zero, List.singleton_append]
        congr 1
        apply List.map_congr_left
        intro j _
        have : s.n + 1 + j = s.n + (j + 1) := by omega
        simp [Function.comp, this, Nat.succ_eq_add_one]
      · rw [hn]
        have : (addedState kind s r).n = s.n + 1 := by simp [addedState]
        rw [this, List.length_cons]
        omega

/-- C7: for rows added without explicit ids to a record store of kind `K`,
the derived ids are exactly `K_0, K_1, ..., K_(N-1)` in insertion order,
the ordinal being the row's 0-based insertion position at the time of the
add. -/
theorem C7_derived_ids (kind : String) (rows : List Row)
    (h : ∀ r ∈ rows, r.Ty = kind ∧ r.Idx = "" ∧ WFRow r) :
    ∃ s', foldAdd kind initRecord rows = some s' ∧
      s'.idx = (List.range rows.length).map
        (fun j => kind ++ "_" ++ toString j) ∧
      s'.n = rows.length := by
  obtain ⟨s', hfold, hidx, hn⟩ := foldAdd_blank kind rows h initRecord
  refine ⟨s', hfold, ?_, ?_⟩
  · rw [hidx]
    simp [initRecord]
  · rw [hn]
    simp [initRecord]

/-- Witness for C7: three blank-id PMU rows receive ids
`PMU_0, PMU_1, PMU_2`. -/
theorem C7_derived_ids_witness :
    (foldAdd "PMU" initRecord
      (List.replicate 3
        { Ty := "PMU", Idx := "", Name := "", Region := "", Longitude := "None"
          Latitude := "None", MAC := "None", IP := "", PMU_IDX := "None"
          Delay := "None", BW := "None", Loss := "None", Jitter := "None"
          From := "None", To := "None" })).map (fun s => s.idx) =
      some ["PMU_0", "PMU_1", "PMU_2"] := by
  obtain ⟨s', hfold, hidx, _⟩ := C7_derived_ids "PMU"
    (List.replicate 3
      { Ty := "PMU", Idx := "", Name := "", Region := "", Longitude := "None"
        Latitude := "None", MAC := "None", IP := "", PMU_IDX := "None"
        Delay := "None", BW := "None", Loss := "None", Jitter := "None"
        From := "None", To := "None" })
    (by decide)
  rw [hfold]
  simp only [Option.map_some']
  rw [hidx]
  decide

/-- Two Switch rows with the declared ids `sw-east` and `sw-west`, inserted
in that order. -/
def stSwitchEx : RecordState :=
  (Record.add "Switch"
    (Record.add "Switch" initRecord
      { Ty := "Switch", Idx := "sw-east", Name := "", Region := "", Longitude := "None"
        Latitude := "None", MAC := "None", IP := "", PMU_IDX := "None"
        Delay := "None", BW := "None", Loss := "None", Jitter := "None"
        From := "None", To := "None" }).state
    { Ty := "Switch", Idx := "sw-west", Name := "", Region := "", Longitude := "None"
      Latitude := "None", MAC := "None", IP := "", PMU_IDX := "None"
      Delay := "None", BW := "None", Loss := "None", Jitter := "None"
      From := "None", To := "None" }).state

/-- C4: the default canonical-naming rule (`Record.build_mn_name`) assigns
`prefix + id` to each row in order (`prefix` is the store's per-kind
constant, empty unless overridden); the Switch override
(`Switch.build_mn_name`) assigns purely positional names `s<ordinal>` in
insertion order and ignores the rows' ids entirely — two Switch stores with
the same row count get identical canonical names whatever their ids are —
so Switch rows with ids `sw-east`, `sw-west` inserted in that order get
canonical names `s0`, `s1`. -/
theorem C4_build_mn_name :
    (∀ (s : RecordState) (i : Nat), i < s.n →
      (Record.build_mn_name s).mn_name.getD i "" = s.pfx ++ s.idx.getD i "") ∧
    (∀ s t : RecordState, s.n = t.n →
      (Switch.build_mn_name s).mn_name = (Switch.build_mn_name t).mn_name) ∧
    ((Switch.build_mn_name stSwitchEx).mn_name = ["s0", "s1"] ∧
     stSwitchEx.idx = ["sw-east", "sw-west"]) := by
  refine ⟨?_, ?_, by decide, by decide⟩
  · intro s i hi
    unfold Record.build_mn_name
    exact getD_map_range _ s.n i hi ""
  · intro s t h
    unfold Switch.build_mn_name
    simp only [h]

/-- Witness for C4: both general conjuncts applied to the concrete
two-switch store. -/
theorem C4_build_mn_name_witness :
    (Record.build_mn_name stSwitchEx).mn_name.getD 0 "" = "sw-east" ∧
    (Switch.build_mn_name stSwitchEx).mn_name =
      (Switch.build_mn_name { stSwitchEx with idx := ["other", "names"] }).mn_name := by
  constructor
  · rw [C4_build_mn_name.1 stSwitchEx 0 (by decide)]
    decide
  · exact C4_build_mn_name.2.1 stSwitchEx
      { stSwitchEx with idx := ["other", "names"] } rfl

/-- A PMU row whose telemetry index is explicitly `0` and whose delay is
set to `5`. -/
def rowPmu0 : Row :=
  { Ty := "PMU", Idx := "p1", Name := "pm", Region := "R1", Longitude := "None"
    Latitude := "None", MAC := "None", IP := "", PMU_IDX := "0"
    Delay := "5", BW := "None", Loss := "None", Jitter := "None"
    From := "None", To := "None" }

/-- The store holding exactly the row `rowPmu0`. -/
def stPmu0 : RecordState := (Record.add "PMU" initRecord rowPmu0).state

/-- One row of `Record.dump` after rendering (positional helper). -/
theorem dumpStr_row (kind : String) (s : RecordState) (i : Nat) (h : i < s.n) :
    (Record.dumpStr kind s).getD i [] =
      List.map Cell.toStr
        [Cell.str (s.idx.getD i ""),
         Cell.str kind,
         Cell.str (s.region.getD i ""),
         Cell.str (s.name.getD i ""),
         Cell.str (strOfCoord (s.coords.getD i (none, none)).2),
         Cell.str (strOfCoord (s.coords.getD i (none, none)).1),
         (match s.mac.getD i none with
          | some m => if m ≠ "" then Cell.str m else Cell.str "None"
          | none => Cell.str "None"),
         (if s.ip.getD i "" ≠ "" then Cell.str (s.ip.getD i "") else Cell.str "None"),
         (match s.pmu_idx.getD i none with
          | some k => if k ≠ 0 then Cell.int k else Cell.str "None"
          | none => Cell.str "None"),
         (if truthyOptInt (s.pmu_idx.getD i none) then
            (match s.delay.getD i none with
             | some d => Cell.str d
             | none => Cell.pyNone)
          else Cell.str "None"),
         (match s.bw.getD i none with
          | some b => if b ≠ "" then Cell.str b else Cell.str "None"
          | none => Cell.str "None"),
         (match s.loss.getD i none with
          | some v => if v ≠ "" then Cell.str v else Cell.str "None"
          | none => Cell.str "None"),
         (match s.jitter.getD i none with
          | some v => if v ≠ "" then Cell.str v else Cell.str "None"
          | none => Cell.str "None")] := by
  unfold Record.dumpStr Record.dump
  rw [List.map_map]
  exact getD_map_range _ s.n i h []

/-- Counterexample to C2: in the store holding `rowPmu0` the telemetry
index is explicitly set (to the integer 0) and the delay value is present,
yet the dumped delay column renders the placeholder — so the delay column is
not emitted conditional on `telemetryIndex` being *set*. -/
theorem C2_counterexample :
    stPmu0.pmu_idx = [some 0] ∧ stPmu0.delay = [some "5"] ∧
    ((Record.dumpStr "PMU" stPmu0).getD 0 []).getD 9 "" = "None" := by
  decide

/-- The absent-value placeholder of the dump. -/
def placeholder : String := "None"

/-- Spec-side row rendering, written from the amended claim: fixed column
order id, kind, region, name, longitude, latitude, hardwareAddress,
ipAddress, telemetryIndex, delay, bandwidth, lossPercent, jitter; an
optional field renders its value when truthy and the placeholder otherwise
(so in particular every unset optional field renders the placeholder); the
telemetryIndex column and the delay column both gate on the truthiness of
the stored telemetryIndex (set and non-zero), while bandwidth, lossPercent
and jitter gate on their own values. -/
def dumpSpecRow (kind : String) (s : RecordState) (i : Nat) : List String :=
  [s.idx.getD i "",
   kind,
   s.region.getD i "",
   s.name.getD i "",
   (match (s.coords.getD i (none, none)).2 with
    | some v => v
    | none => placeholder),
   (match (s.coords.getD i (none, none)).1 with
    | some v => v
    | none => placeholder),
   (if truthyOptStr (s.mac.getD i none) then (s.mac.getD i none).getD ""
    else placeholder),
   (if s.ip.getD i "" ≠ "" then s.ip.getD i "" else placeholder),
   (if truthyOptInt (s.pmu_idx.getD i none) then
      toString ((s.pmu_idx.getD i none).getD 0)
    else placeholder),
   (if truthyOptInt (s.pmu_idx.getD i none) then
      (match s.delay.getD i none with
       | some v => v
       | none => placeholder)
    else placeholder),
   (if truthyOptStr (s.bw.getD i none) then (s.bw.getD i none).getD ""
    else placeholder),
   (if truthyOptStr (s.loss.getD i none) then (s.loss.getD i none).getD ""
    else placeholder),
   (if truthyOptStr (s.jitter.getD i none) then (s.jitter.getD i none).getD ""
    else placeholder)]

/-- C2 (amended): the rendered dump produces one output row per stored
record in insertion order, and every row follows the amended column
specification `dumpSpecRow`: fixed 13-column order, placeholder for every
non-truthy optional field, the delay column gated on the truthiness of the
stored telemetryIndex (set *and non-zero*) rather than on the delay value,
and bandwidth/lossPercent/jitter gated on their own values. -/
theorem C2_dump_spec (kind : String) (s : RecordState) :
    Record.dumpStr kind s = (List.range s.n).map (dumpSpecRow kind s) := by
  unfold Record.dumpStr Record.dump
  rw [List.map_map]
  apply List.map_congr_left
  intro i _
  simp only [Function.comp_apply, List.map_cons, List.map_nil]
  unfold dumpSpecRow placeholder
  generalize s.mac.getD i none = om
  generalize s.pmu_idx.getD i none = op
  generalize s.delay.getD i none = od
  generalize s.bw.getD i none = ob
  generalize s.loss.getD i none = ol
  generalize s.jitter.getD i none = oj
  generalize s.ip.getD i "" = vip
  generalize s.coords.getD i (none, none) = co
  obtain ⟨la, lo⟩ := co
  simp only [List.cons.injEq, and_true]
  refine ⟨rfl, rfl, rfl, rfl, ?_, ?_, ?_, ?_, ?_, ?_, ?_, ?_, ?_⟩
  · cases lo <;> rfl
  · cases la <;> rfl
  · cases om with
    | none => rfl
    | some m => by_cases hm : m = "" <;> simp [Cell.toStr, truthyOptStr, hm]
  · by_cases hip : vip = "" <;> simp [Cell.toStr, hip]
  · cases op with
    | none => rfl
    | some k => by_cases hk : k = 0 <;> simp [Cell.toStr, truthyOptInt, hk]
  · cases op with
    | none => rfl
    | some k =>
        by_cases hk : k = 0 <;> cases od <;>
          simp [Cell.toStr, truthyOptInt, hk]
  · cases ob with
    | none => rfl
    | some b => by_cases hb : b = "" <;> simp [Cell.toStr, truthyOptStr, hb]
  · cases ol with
    | none => rfl
    | some v => by_cases hv : v = "" <;> simp [Cell.toStr, truthyOptStr, hv]
  · cases oj with
    | none => rfl
    | some v => by_cases hv : v = "" <;> simp [Cell.toStr, truthyOptStr, hv]

/-- C10: a stored telemetryIndex whose value is the integer 0 is rendered as
the placeholder even though it was explicitly set, and it also suppresses
the row's delay column, because both columns gate on the truthiness of the
stored telemetryIndex rather than on its presence; in general the dumped
telemetryIndex column shows the stored value if and only if it is set and
non-zero. -/
theorem C10_truthy_gate :
    (stPmu0.pmu_idx = [some 0] ∧ stPmu0.delay = [some "5"] ∧
      ((Record.dumpStr "PMU" stPmu0).getD 0 []).getD 8 "" = "None" ∧
      ((Record.dumpStr "PMU" stPmu0).getD 0 []).getD 9 "" = "None") ∧
    (∀ (kind : String) (s : RecordState) (i : Nat), i < s.n →
      (s.pmu_idx.getD i none = none →
        ((Record.dumpStr kind s).getD i []).getD 8 "" = "None") ∧
      (∀ k : Int, s.pmu_idx.getD i none = some k →
        (((Record.dumpStr kind s).getD i []).getD 8 "" = toString k ↔ k ≠ 0) ∧
        (k = 0 → ((Record.dumpStr kind s).getD i []).getD 9 "" = "None"))) := by
  refine ⟨by decide, ?_⟩
  intro kind s i h
  rw [dumpStr_row kind s i h]
  constructor
  · intro hp
    simp only [List.map_cons, List.map_nil, hp, List.getD_cons_succ,
      List.getD_cons_zero]
    rfl
  · intro k hp
    simp only [List.map_cons, List.map_nil, hp, List.getD_cons_succ,
      List.getD_cons_zero]
    refine ⟨?_, ?_⟩
    · by_cases hk : k = 0
      · subst hk
        decide
      · simp [Cell.toStr, hk]
    · intro hk0
      subst hk0
      simp [Cell.toStr, truthyOptInt]

/-- A PMU row store with telemetry index 7, for the C10 witness. -/
def stPmu7 : RecordState :=
  (Record.add "PMU" initRecord
    { Ty := "PMU", Idx := "p7", Name := "pm", Region := "R1", Longitude := "None"
      Latitude := "None", MAC := "None", IP := "", PMU_IDX := "7"
      Delay := "5", BW := "None", Loss := "None", Jitter := "None"
      From := "None", To := "None" }).state

/-- Witness for C10: the general part applied to a store whose telemetry
index is the non-zero integer 7, whose dumped telemetryIndex column then
shows the stored value. -/
theorem C10_truthy_gate_witness :
    ((Record.dumpStr "PMU" stPmu7).getD 0 []).getD 8 "" = toString (7 : Int) := by
  have h := (C10_truthy_gate.2 "PMU" stPmu7 0 (by decide)).2 7 (by decide)
  exact h.1.mpr (by decide)

/-- Witness for the amended C2: the rendered dump of the one-row store
`stPmu0` equals the spec-side rendering, both evaluating to the same
explicit row. -/
theorem C2_dump_spec_witness :
    Record.dumpStr "PMU" stPmu0 =
      [["p1", "PMU", "R1", "pm", "None", "None", "None", "None", "None",
        "None", "None", "None", "None"]] := by
  rw [C2_dump_spec "PMU" stPmu0]
  decide

/-- A network whose `Link` store declares the same physical link twice, from
opposite directions: row 0 is `(A, B)`, row 1 is `(B, A)`; no shaping
parameters, and no Switch rows (so canonicalization passes the endpoints
through). -/
def exLinkNet (A B : String) : Network :=
  { initNetwork with
      Link := { initLink with
          n := 2
          mn_name := ["Link_0", "Link_1"]
          fr := [some A, some B]
          toCol := [some B, some A]
          delay := [none, none]
          bw := [none, none]
          loss := [none, none]
          jitter := [none, none] } }

/-- C5: link materialization deduplicates undirected edges — processing a
link row `(A, B)` followed by a second link row `(B, A)` results in exactly
one backend link-creation call and exactly one Link Registry entry, because
the existence check accepts either ordering of a previously registered
endpoint pair. -/
theorem C5_link_dedup (A B : String) :
    (Link.add_link_to_mn (exLinkNet A B) []).map
      (fun p => (p.1.Link.links, p.2.length)) =
      some ([(some A, some B)], 1) := by
  have hrows : Link.linkRows (exLinkNet A B).Link =
      [(0, "Link_0", some A, some B, none, none, none, none),
       (1, "Link_1", some B, some A, none, none, none, none)] := rfl
  simp only [Link.add_link_to_mn, hrows, List.foldlM_cons, List.foldlM_nil]
  simp [Link.exist_undirectioned, Link.exist_directioned, Link.register,
    Network.to_canonical, exLinkNet, initNetwork, initLink, initRecord]

/-- Witness for C5: the dedup theorem applied to concrete endpoint names. -/
theorem C5_link_dedup_witness :
    (Link.add_link_to_mn (exLinkNet "pdc-1" "sw-2") []).map
      (fun p => (p.1.Link.links, p.2.length)) =
      some ([(some "pdc-1", some "sw-2")], 1) :=
  C5_link_dedup "pdc-1" "sw-2"

theorem Members.ext_get (m1 m2 : Members)
    (h : ∀ k : Tk, m1.get k = m2.get k) : m1 = m2 := by
  cases m1
  cases m2
  have hs := h Tk.SwitchK
  have hr := h Tk.RouterK
  have hp := h Tk.PMUK
  have hd := h Tk.PDCK
  simp only [Members.get] at hs hr hp hd
  simp [hs, hr, hp, hd]

theorem Members.get_set_self (m : Members) (k : Tk) (v : List (List String)) :
    (m.set k v).get k = v := by
  cases k <;> rfl

theorem Members.get_set_ne (m : Members) (k k' : Tk) (hne : k ≠ k')
    (v : List (List String)) : (m.set k v).get k' = m.get k' := by
  cases k <;> cases k' <;> first | rfl | exact absurd rfl hne

theorem Members.set_get_self (m : Members) (k : Tk) :
    m.set k (m.get k) = m := by
  cases k <;> rfl

theorem fold_setup_preserve (net : Network) (comps : List String) :
    ∀ (m0 m1 : Members),
      comps.foldlM (setupStep net) m0 = some m1 →
      ∀ k : Tk, (¬ ∃ item ∈ comps, tracked item = some k) →
        m1.get k = m0.get k := by
  induction comps with
  | nil =>
      intro m0 m1 hfold k _
      rw [List.foldlM_nil] at hfold
      cases hfold
      rfl
  | cons item rest ih =>
      intro m0 m1 hfold k hno
      rw [List.foldlM_cons] at hfold
      obtain ⟨m0', hstep, hrest⟩ := Option.bind_eq_some.mp hfold
      have hno' : ¬ ∃ item' ∈ rest, tracked item' = some k := by
        intro ⟨itx, hx, htrx⟩
        exact hno ⟨itx, List.mem_cons_of_mem item hx, htrx⟩
      have hget : m0'.get k = m0.get k := by
        unfold setupStep at hstep
        cases htr : tracked item with
        | none =>
            rw [htr] at hstep
            cases hstep
            rfl
        | some k2 =>
            rw [htr] at hstep
            obtain ⟨c2, _, hset2⟩ := Option.map_eq_some'.mp hstep
            have hk2ne : k2 ≠ k := by
              intro hcontra
              subst hcontra
              exact hno ⟨item, List.mem_cons_self item rest, htr⟩
            rw [← hset2]
            exact Members.get_set_ne m0 k2 k hk2ne c2
      rw [ih m0' m1 hrest k hno', hget]

theorem fold_setup_written (net : Network) (comps : List String) :
    ∀ (m0 m1 : Members),
      comps.foldlM (setupStep net) m0 = some m1 →
      ∀ k : Tk, (∃ item ∈ comps, tracked item = some k) →
        buildKind net.Region (kindStore net k) = some (m1.get k) := by
  induction comps with
  | nil =>
      intro m0 m1 _ k hk
      obtain ⟨item, hitem, _⟩ := hk
      exact absurd hitem (List.not_mem_nil item)
  | cons item rest ih =>
      intro m0 m1 hfold k hk
      rw [List.foldlM_cons] at hfold
      obtain ⟨m0', hstep, hrest⟩ := Option.bind_eq_some.mp hfold
      by_cases hres : ∃ item' ∈ rest, tracked item' = some k
      · exact ih m0' m1 hrest k hres
      · obtain ⟨item0, hitem0, htr0⟩ := hk
        have hhead : item0 = item := by
          rcases List.mem_cons.mp hitem0 with h | h
          · exact h
          · exact absurd ⟨item0, h, htr0⟩ hres
        subst hhead
        unfold setupStep at hstep
        rw [htr0] at hstep
        obtain ⟨c, hc, hset⟩ := Option.map_eq_some'.mp hstep
        have hpres : m1.get k = m0'.get k :=
          fold_setup_preserve net rest m0' m1 hrest k hres
        rw [hpres, ← hset, Members.get_set_self, hc]

theorem fold_setup_fix (net : Network) (comps : List String) :
    ∀ m : Members,
      (∀ item ∈ comps, ∀ k : Tk, tracked item = some k →
        buildKind net.Region (kindStore net k) = some (m.get k)) →
      comps.foldlM (setupStep net) m = some m := by
  induction comps with
  | nil => intro m _; rfl
  | cons item rest ih =>
      intro m h
      rw [List.foldlM_cons]
      have hstep : setupStep net m item = some m := by
        unfold setupStep
        cases htr : tracked item with
        | none => rfl
        | some k =>
            show Option.map (fun l => m.set k l)
              (buildKind net.Region (kindStore net k)) = some m
            rw [h item (List.mem_cons_self item rest) k htr]
            simp only [Option.map_some']
            rw [Members.set_get_self]
      rw [hstep]
      exact ih m (fun it hit k htr => h it (List.mem_cons_of_mem item hit) k htr)

theorem components_withMembers (net : Network) (m : Members) :
    (withMembers net m).components = net.components := rfl

theorem initMembers_withMembers (net : Network) (m : Members) :
    initMembers (withMembers net m) = m := rfl

theorem setupStep_withMembers (net : Network) (m : Members) :
    setupStep (withMembers net m) = setupStep net := by
  funext m' item
  unfold setupStep
  cases htr : tracked item with
  | none => rfl
  | some k => cases k <;> rfl

theorem withMembers_withMembers (net : Network) (m m' : Members) :
    withMembers (withMembers net m) m' = withMembers net m' := rfl

/-- C8: region resolution is idempotent — it rebuilds each tracked kind's
per-region membership lists from scratch on every invocation, so a second
run of `Network.setup_by_region` on the unchanged resulting model returns
that model itself. -/
theorem C8_setup_by_region_idempotent (net net' : Network)
    (h : Network.setup_by_region net = some net') :
    Network.setup_by_region net' = some net' := by
  unfold Network.setup_by_region at h ⊢
  obtain ⟨m1, hfold, hF⟩ := Option.map_eq_some'.mp h
  subst hF
  rw [components_withMembers, setupStep_withMembers, initMembers_withMembers]
  have hfix : net.components.foldlM (setupStep net) m1 = some m1 :=
    fold_setup_fix net net.components m1
      (fun item hitem k htr =>
        fold_setup_written net net.components (initMembers net) m1 hfold k
          ⟨item, hitem, htr⟩)
  rw [hfix]
  simp only [Option.map_some']
  rw [withMembers_withMembers]

/-- A small network on which region resolution succeeds: one region `R1`
and one PMU row assigned to it. -/
def exC8 : Network :=
  { initNetwork with
      components := ["Region", "PMU"]
      Region := { initRegion with n := 1, idx := ["R1"], name := ["R1"] }
      PMU := { initRecord with
          n := 1, idx := ["PMU_0"], name := ["pmu1"], region := ["R1"] } }

/-- The model produced by one region-resolution pass over `exC8`. -/
def exC8' : Network := withMembers exC8 ⟨[], [], [["PMU_0"]], []⟩

/-- Witness for C8: the theorem applied to the concrete model `exC8`, whose
first resolution pass is evaluated by `decide`. -/
theorem C8_setup_by_region_idempotent_witness :
    Network.setup_by_region exC8' = some exC8' :=
  C8_setup_by_region_idempotent exC8 exC8' (by decide)

/-- The precondition under which the region scan of one store cannot raise:
the positional reads stay in range and every region value that passes the
membership test against `Region.idx` can also be located in `Region.name`. -/
def storeRegionsOk (reg : RegionStore) (st : RecordState) : Prop :=
  st.n ≤ st.name.length ∧ st.n ≤ st.idx.length ∧ st.n ≤ st.region.length ∧
  ∀ r ∈ st.region, r ∈ reg.idx → r ∈ reg.name

instance (reg : RegionStore) (st : RecordState) :
    Decidable (storeRegionsOk reg st) := by
  unfold storeRegionsOk; infer_instance

theorem findIdx?_isSome_of_mem (r : String) :
    ∀ (l : List String) (i : Nat), r ∈ l →
      (List.findIdx? (fun y => y = r) l i).isSome = true := by
  intro l
  induction l with
  | nil => intro i h; exact absurd h (List.not_mem_nil r)
  | cons a t ih =>
      intro i h
      rw [List.findIdx?_cons]
      by_cases ha : a = r
      · simp [ha]
      · have ht : r ∈ t := by
          rcases List.mem_cons.mp h with h' | h'
          · exact absurd h'.symm ha
          · exact h'
        simp only [decide_eq_true_eq]
        rw [if_neg ha]
        exact ih (i + 1) ht

theorem regionStep_isSome (reg : RegionStore) (st : RecordState)
    (hok : storeRegionsOk reg st) (lists : List (List String)) (i : Nat)
    (hi : i < st.n) : ∃ lists', regionStep reg st lists i = some lists' := by
  obtain ⟨h1, h2, h3, h4⟩ := hok
  have hnm : ∃ nm, st.name.get? i = some nm := by
    cases hx : st.name.get? i with
    | none => exact absurd (List.get?_eq_none.mp hx) (by omega)
    | some nm => exact ⟨nm, rfl⟩
  have hix : ∃ x, st.idx.get? i = some x := by
    cases hx : st.idx.get? i with
    | none => exact absurd (List.get?_eq_none.mp hx) (by omega)
    | some x => exact ⟨x, rfl⟩
  have hrg : ∃ r, st.region.get? i = some r := by
    cases hx : st.region.get? i with
    | none => exact absurd (List.get?_eq_none.mp hx) (by omega)
    | some r => exact ⟨r, rfl⟩
  obtain ⟨nm, hnm⟩ := hnm
  obtain ⟨x, hix⟩ := hix
  obtain ⟨r, hrg⟩ := hrg
  unfold regionStep
  rw [hnm, hix, hrg]
  simp only [Option.bind_eq_bind, Option.some_bind]
  by_cases hr : r ∈ reg.idx
  · have hrn : r ∈ reg.name := h4 r (List.get?_mem hrg) hr
    obtain ⟨p, hp⟩ := Option.isSome_iff_exists.mp
      (findIdx?_isSome_of_mem r reg.name 0 hrn)
    rw [if_pos hr, hp]
    exact ⟨appendAt lists p x, rfl⟩
  · rw [if_neg hr]
    exact ⟨lists, rfl⟩

theorem buildKind_isSome (reg : RegionStore) (st : RecordState)
    (hok : storeRegionsOk reg st) : (buildKind reg st).isSome = true := by
  unfold buildKind
  have key : ∀ (l : List Nat), (∀ i ∈ l, i < st.n) →
      ∀ lists, ((l.foldlM (regionStep reg st) lists).isSome = true) := by
    intro l
    induction l with
    | nil => intro _ lists; rfl
    | cons i t ih =>
        intro hmem lists
        rw [List.foldlM_cons]
        obtain ⟨lists', hstep⟩ :=
          regionStep_isSome reg st hok lists i (hmem i (List.mem_cons_self i t))
        rw [hstep]
        exact ih (fun j hj => hmem j (List.mem_cons_of_mem i hj)) lists'
  exact key (List.range st.n) (fun i hi => List.mem_range.mp hi)
    (List.replicate reg.n [])

theorem setup_by_region_isSome (net : Network)
    (h : ∀ item ∈ net.components, ∀ k : Tk, tracked item = some k →
      storeRegionsOk net.Region (kindStore net k)) :
    (Network.setup_by_region net).isSome = true := by
  unfold Network.setup_by_region
  have key : ∀ comps : List String,
      (∀ item ∈ comps, ∀ k : Tk, tracked item = some k →
        storeRegionsOk net.Region (kindStore net k)) →
      ∀ m, ((comps.foldlM (setupStep net) m).isSome = true) := by
    intro comps
    induction comps with
    | nil => intro _ m; rfl
    | cons item rest ih =>
        intro hc m
        rw [List.foldlM_cons]
        have hstep : ∃ m', setupStep net m item = some m' := by
          unfold setupStep
          cases htr : tracked item with
          | none => exact ⟨m, rfl⟩
          | some k =>
              obtain ⟨c, hcs⟩ := Option.isSome_iff_exists.mp
                (buildKind_isSome net.Region (kindStore net k)
                  (hc item (List.mem_cons_self item rest) k htr))
              refine ⟨m.set k c, ?_⟩
              show Option.map (fun l => m.set k l)
                (buildKind net.Region (kindStore net k)) = some (m.set k c)
              rw [hcs]
              rfl
        obtain ⟨m', hstep⟩ := hstep
        rw [hstep]
        exact ih (fun it hit k htr => hc it (List.mem_cons_of_mem item hit) k htr) m'
  obtain ⟨m, hm⟩ := Option.isSome_iff_exists.mp
    (key net.components h (initMembers net))
  rw [hm]
  rfl

/-- C9: the region scan checks a row's region value against the Region
store's id list but then locates its position in the Region store's *name*
list.  (a) The pass is total when every region value that passes the id-list
membership test can also be located in the name list (with the positional
reads in range); (b) a row whose region passes the id test is appended at
the position of the region in the name list — not its position in the id
list; (c) if the region passes the id test but cannot be located in the
name list, the pass raises (`list.index` ValueError). -/
theorem C9_region_lookup :
    (∀ net : Network,
      (∀ item ∈ net.components, ∀ k : Tk, tracked item = some k →
        storeRegionsOk net.Region (kindStore net k)) →
      (Network.setup_by_region net).isSome = true) ∧
    (∀ (reg : RegionStore) (st : RecordState) (nm x r : String) (p : Nat),
      st.n = 1 → st.name.get? 0 = some nm → st.idx.get? 0 = some x →
      st.region.get? 0 = some r → r ∈ reg.idx →
      List.findIdx? (fun y => y = r) reg.name = some p →
      buildKind reg st = some (appendAt (List.replicate reg.n []) p x)) ∧
    (∀ (reg : RegionStore) (st : RecordState) (nm x r : String),
      st.n = 1 → st.name.get? 0 = some nm → st.idx.get? 0 = some x →
      st.region.get? 0 = some r → r ∈ reg.idx →
      List.findIdx? (fun y => y = r) reg.name = none →
      buildKind reg st = none) := by
  refine ⟨setup_by_region_isSome, ?_, ?_⟩
  · intro reg st nm x r p hn hnm hix hrg hr hfind
    unfold buildKind
    rw [hn]
    have h01 : List.range 1 = [0] := rfl
    rw [h01, List.foldlM_cons]
    unfold regionStep
    rw [hnm, hix, hrg]
    simp only [Option.bind_eq_bind, Option.some_bind]
    rw [if_pos hr, hfind]
    rfl
  · intro reg st nm x r hn hnm hix hrg hr hfind
    unfold buildKind
    rw [hn]
    have h01 : List.range 1 = [0] := rfl
    rw [h01, List.foldlM_cons]
    unfold regionStep
    rw [hnm, hix, hrg]
    simp only [Option.bind_eq_bind, Option.some_bind]
    rw [if_pos hr, hfind]
    rfl

/-- A Region store whose id list and name list order the two regions
differently: region `A` sits at position 0 of the id list but position 1 of
the name list. -/
def exRegC9 : RegionStore :=
  { initRegion with n := 2, idx := ["A", "B"], name := ["B", "A"] }

/-- A one-row store whose row belongs to region `A`. -/
def exStC9 : RecordState :=
  { initRecord with n := 1, idx := ["x1"], name := ["row1"], region := ["A"] }

/-- Witness for C9: the placement part applied to the concrete stores — the
row id `x1` lands in the membership list at position 1 (the position of `A`
in `Region.name`), not position 0 (its position in `Region.idx`). -/
theorem C9_region_lookup_witness :
    buildKind exRegC9 exStC9 = some [[], ["x1"]] := by
  have h := C9_region_lookup.2.1 exRegC9 exStC9 "row1" "x1" "A" 1
    rfl rfl rfl rfl (by decide) (by decide)
  exact h.trans (by decide)
